import Mathlib

/-!
Verification of the molecular cloning calculator (`src/app.py`).

The single piece of domain logic is the pure function `calculate_dna_volumes`,
which converts a desired insert:backbone molar ratio and a total molar amount
into per-fragment molar amounts (pmol), masses (ng) and pipetting volumes (µL).

We embed the function shallowly over ℚ (idealised real arithmetic, as the
spec's "exactly over real arithmetic" reading prescribes).  Python's runtime
failures — `ZeroDivisionError` on a zero line-18 denominator (that division is
pure Python floats) and `IndexError` when `concentrations` is shorter than
`lengths` — are modelled with an `Except PyError` result, mirroring the
evaluation order of the source: the backbone-amount division happens first,
then the per-fragment loop in index order.

One deliberate idealisation: a zero `concentrations[i]` is guarded with an
error in `fragStep`, whereas in the program `weight[i]` is an `np.float64`,
so that division would emit a RuntimeWarning and return `inf` — the call
would complete.  Floating-point `inf` has no counterpart in ℚ, so the guard
conservatively marks this numeric degeneracy.  Every theorem below either
assumes nonzero (indeed positive) concentrations or evaluates on concrete
inputs away from this branch, so on its domain the model and the program
coincide; no theorem asserts the guard as program behaviour.
-/

namespace CloningCalc

/-- Runtime errors the Python function can raise. -/
inductive PyError where
  | zeroDivisionError
  | indexError
deriving DecidableEq, Repr

/-- Line 26 of `app.py`: `n[i] = ratio * n_backbone if i > 0 else n_backbone`. -/
def fragN (ratio n_backbone : ℚ) (i : Nat) : ℚ :=
  if i > 0 then ratio * n_backbone else n_backbone

/-- Line 31 of `app.py`:
`weight[i] = n[i] * 10**-12 * 660 * 10**9 * lengths[i] * 10**3`,
kept with the literal conversion factors of the source. -/
def fragWeight (n_i length_i : ℚ) : ℚ :=
  n_i * (10 : ℚ) ^ (-12 : ℤ) * 660 * (10 : ℚ) ^ (9 : ℕ) * length_i * (10 : ℚ) ^ (3 : ℕ)

/-- One iteration of the loop of lines 24–33: compute the molar amount,
the weight and the volume of fragment `i`, failing the way Python does when
an index is out of range.  The zero-concentration branch is the conservative
guard discussed in the header (numpy would return `inf` and complete); all
theorems below stay on domains where this branch is dead. -/
def fragStep (ratio n_backbone : ℚ) (lengths concentrations : List ℚ) (i : Nat) :
    Except PyError (ℚ × ℚ × ℚ) :=
  match lengths[i]?, concentrations[i]? with
  | some li, some ci =>
      if ci = 0 then .error .zeroDivisionError
      else
        let ni := fragN ratio n_backbone i
        let wi := fragWeight ni li
        .ok (wi / ci, wi, ni)
  | _, _ => .error .indexError

/-- The loop of lines 24–33 over a list of indices, propagating the first
error, in order. -/
def calcFrags (ratio n_backbone : ℚ) (lengths concentrations : List ℚ) :
    List Nat → Except PyError (List (ℚ × ℚ × ℚ))
  | [] => .ok []
  | i :: is =>
    match fragStep ratio n_backbone lengths concentrations i with
    | .error e => .error e
    | .ok r =>
      match calcFrags ratio n_backbone lengths concentrations is with
      | .error e => .error e
      | .ok rs => .ok (r :: rs)

/-- The denominator of line 18, `1 + ratio * (len(lengths) - 1)`.
`len(lengths) - 1` is Python integer arithmetic, so for the empty list it is
`-1`; we therefore subtract in ℚ, not in ℕ. -/
def dnaDenom (lengths : List ℚ) (ratio : ℚ) : ℚ :=
  1 + ratio * ((lengths.length : ℚ) - 1)

/-- `calculate_dna_volumes` of `app.py` (lines 4–35): returns the triple
`(vol, weight, n)` of per-fragment volumes (µL), weights (ng) and molar
amounts (pmol).  Line 18 divides by `dnaDenom`, raising `ZeroDivisionError`
when it is zero; the loop then fills the three arrays in index order. -/
def calculate_dna_volumes (lengths concentrations : List ℚ) (ratio n_total : ℚ) :
    Except PyError (List ℚ × List ℚ × List ℚ) :=
  if dnaDenom lengths ratio = 0 then .error .zeroDivisionError
  else
    match calcFrags ratio (n_total / dnaDenom lengths ratio) lengths concentrations
        (List.range lengths.length) with
    | .error e => .error e
    | .ok rs => .ok (rs.map (·.1), rs.map (·.2.1), rs.map (·.2.2))

/-- Closed form of one loop iteration on in-range, nonzero-concentration
inputs: `(volume, weight, amount)` of fragment `i`. -/
def fragVal (ratio n_backbone : ℚ) (lengths concentrations : List ℚ) (i : Nat) : ℚ × ℚ × ℚ :=
  let ni := fragN ratio n_backbone i
  let wi := fragWeight ni (lengths.getD i 0)
  (wi / concentrations.getD i 0, wi, ni)

/-- The backbone molar amount of line 18, `n_total / (1 + ratio * (N - 1))`. -/
def n_backboneVal (lengths : List ℚ) (ratio n_total : ℚ) : ℚ :=
  n_total / dnaDenom lengths ratio

/-- Closed form of the returned molar amounts `n`. -/
def amountsVal (lengths : List ℚ) (ratio n_total : ℚ) : List ℚ :=
  (List.range lengths.length).map (fragN ratio (n_backboneVal lengths ratio n_total))

/-- Closed form of the returned weights. -/
def weightsVal (lengths : List ℚ) (ratio n_total : ℚ) : List ℚ :=
  (List.range lengths.length).map fun i =>
    fragWeight (fragN ratio (n_backboneVal lengths ratio n_total) i) (lengths.getD i 0)

/-- Closed form of the returned volumes. -/
def volumesVal (lengths concentrations : List ℚ) (ratio n_total : ℚ) : List ℚ :=
  (List.range lengths.length).map fun i =>
    fragWeight (fragN ratio (n_backboneVal lengths ratio n_total) i) (lengths.getD i 0) /
      concentrations.getD i 0

/-! ### The net conversion factor and characterization lemmas -/

/-- The three unit-conversion factors of line 31 multiply to 1, so the weight
is exactly `n[i] * 660 * lengths[i]`. -/
theorem fragWeight_eq (n_i length_i : ℚ) : fragWeight n_i length_i = n_i * 660 * length_i := by
  unfold fragWeight
  rw [zpow_neg]
  norm_num
  ring

theorem fragStep_eq_ok (ratio n_backbone : ℚ) (lengths concentrations : List ℚ) (i : Nat)
    (hl : i < lengths.length) (hc : i < concentrations.length)
    (hcne : concentrations.getD i 0 ≠ 0) :
    fragStep ratio n_backbone lengths concentrations i =
      .ok (fragVal ratio n_backbone lengths concentrations i) := by
  unfold fragStep fragVal
  rw [List.getElem?_eq_getElem hl, List.getElem?_eq_getElem hc]
  rw [List.getD_eq_getElem _ _ hc] at hcne
  simp [hcne, List.getD_eq_getElem?_getD, List.getElem?_eq_getElem hl,
    List.getElem?_eq_getElem hc]

theorem fragStep_ok_inv {ratio n_backbone : ℚ} {lengths concentrations : List ℚ} {i : Nat}
    {r : ℚ × ℚ × ℚ} (h : fragStep ratio n_backbone lengths concentrations i = .ok r) :
    i < lengths.length ∧ i < concentrations.length ∧ concentrations.getD i 0 ≠ 0 := by
  unfold fragStep at h
  split at h
  case h_2 => cases h
  case h_1 li ci hli hci =>
    have hl : i < lengths.length := by
      by_contra hcon
      rw [List.getElem?_eq_none (by omega)] at hli
      cases hli
    have hc : i < concentrations.length := by
      by_contra hcon
      rw [List.getElem?_eq_none (by omega)] at hci
      cases hci
    refine ⟨hl, hc, ?_⟩
    rw [List.getD_eq_getElem _ _ hc]
    rw [List.getElem?_eq_getElem hc] at hci
    split at h
    · cases h
    · cases hci
      assumption

theorem calcFrags_eq_ok (ratio n_backbone : ℚ) (lengths concentrations : List ℚ)
    (is : List Nat)
    (h : ∀ i ∈ is, i < lengths.length ∧ i < concentrations.length ∧
      concentrations.getD i 0 ≠ 0) :
    calcFrags ratio n_backbone lengths concentrations is =
      .ok (is.map (fragVal ratio n_backbone lengths concentrations)) := by
  induction is with
  | nil => simp [calcFrags]
  | cons i is ih =>
    obtain ⟨hl, hc, hcne⟩ := h i (List.mem_cons_self i is)
    rw [calcFrags, fragStep_eq_ok _ _ _ _ _ hl hc hcne,
      ih fun j hj => h j (List.mem_cons_of_mem _ hj)]
    simp

theorem calcFrags_ok_inv {ratio n_backbone : ℚ} {lengths concentrations : List ℚ}
    {is : List Nat} {rs : List (ℚ × ℚ × ℚ)}
    (h : calcFrags ratio n_backbone lengths concentrations is = .ok rs) :
    (∀ i ∈ is, i < lengths.length ∧ i < concentrations.length ∧
      concentrations.getD i 0 ≠ 0) ∧
    rs = is.map (fragVal ratio n_backbone lengths concentrations) := by
  induction is generalizing rs with
  | nil =>
    rw [calcFrags] at h
    cases h
    simp
  | cons i is ih =>
    rw [calcFrags] at h
    split at h
    · cases h
    case h_2 r hstep =>
      split at h
      · cases h
      case h_2 rs2 hrec =>
        cases h
        obtain ⟨hmem, hrs⟩ := ih hrec
        obtain ⟨hl, hc, hcne⟩ := fragStep_ok_inv hstep
        have hr : r = fragVal ratio n_backbone lengths concentrations i := by
          have h2 := fragStep_eq_ok ratio n_backbone lengths concentrations i hl hc hcne
          rw [hstep] at h2
          cases h2
          rfl
        constructor
        · intro j hj
          rcases List.mem_cons.mp hj with rfl | hj2
          · exact ⟨hl, hc, hcne⟩
          · exact hmem j hj2
        · simp [hr, hrs]

/-- Forward characterization: on inputs where no runtime error fires (nonzero
denominator, concentrations covering every index with nonzero values — no
sign conditions at all), the call succeeds with the closed-form lists. -/
theorem calculate_eq_ok (lengths concentrations : List ℚ) (ratio n_total : ℚ)
    (hd : dnaDenom lengths ratio ≠ 0)
    (hlen : lengths.length ≤ concentrations.length)
    (hc : ∀ i < lengths.length, concentrations.getD i 0 ≠ 0) :
    calculate_dna_volumes lengths concentrations ratio n_total =
      .ok (volumesVal lengths concentrations ratio n_total,
        weightsVal lengths ratio n_total,
        amountsVal lengths ratio n_total) := by
  unfold calculate_dna_volumes
  rw [if_neg hd]
  rw [calcFrags_eq_ok ratio (n_total / dnaDenom lengths ratio) lengths concentrations
    (List.range lengths.length)
    (fun i hi => by
      have hiN : i < lengths.length := List.mem_range.mp hi
      exact ⟨hiN, lt_of_lt_of_le hiN hlen, hc i hiN⟩)]
  unfold volumesVal weightsVal amountsVal n_backboneVal
  simp [fragVal, Function.comp_def]

/-- Inversion: whenever the call returns `ok`, the denominator was nonzero,
every index was in range with a nonzero concentration, and the three returned
lists are exactly the closed forms. -/
theorem calculate_ok_inv {lengths concentrations : List ℚ} {ratio n_total : ℚ}
    {V W A : List ℚ}
    (h : calculate_dna_volumes lengths concentrations ratio n_total = .ok (V, W, A)) :
    dnaDenom lengths ratio ≠ 0 ∧
    lengths.length ≤ concentrations.length ∧
    (∀ i < lengths.length, concentrations.getD i 0 ≠ 0) ∧
    V = volumesVal lengths concentrations ratio n_total ∧
    W = weightsVal lengths ratio n_total ∧
    A = amountsVal lengths ratio n_total := by
  unfold calculate_dna_volumes at h
  split at h
  · cases h
  case isFalse hd =>
    split at h
    · cases h
    case h_2 rs hrec =>
      cases h
      obtain ⟨hmem, hrs⟩ := calcFrags_ok_inv hrec
      have hc : ∀ i < lengths.length, concentrations.getD i 0 ≠ 0 := fun i hi =>
        (hmem i (List.mem_range.mpr hi)).2.2
      have hlen : lengths.length ≤ concentrations.length := by
        rcases Nat.eq_zero_or_pos lengths.length with h0 | h0
        · omega
        · have := (hmem (lengths.length - 1) (List.mem_range.mpr (by omega))).2.1
          omega
      refine ⟨hd, hlen, hc, ?_, ?_, ?_⟩ <;>
        simp [hrs, volumesVal, weightsVal, amountsVal, n_backboneVal, fragVal,
          Function.comp_def]

/-- Indexing the closed-form lists: entry `i` of `(List.range N).map f`. -/
theorem getD_range_map (f : Nat → ℚ) {N i : Nat} (hi : i < N) :
    ((List.range N).map f).getD i 0 = f i := by
  rw [List.getD_eq_getElem _ _ (by simpa using hi)]
  simp

/-- With at least one fragment and a positive ratio the denominator of line 18
is positive. -/
theorem dnaDenom_pos (lengths : List ℚ) (ratio : ℚ) (hN : 1 ≤ lengths.length)
    (hr : 0 < ratio) : 0 < dnaDenom lengths ratio := by
  unfold dnaDenom
  have h1 : (1 : ℚ) ≤ (lengths.length : ℚ) := by exact_mod_cast hN
  nlinarith

/-- The denominator over the empty fragment list is `1 - ratio` (Python's
`len(lengths) - 1` is `-1` there). -/
theorem dnaDenom_nil (ratio : ℚ) : dnaDenom [] ratio = 1 - ratio := by
  unfold dnaDenom
  simp only [List.length_nil]
  push_cast
  ring

/-- Shared concrete evaluation: the worked example of the spec.  The exact
rational values: backbone amount `1/6`, insert amount `1/3`, weights `550` and
`220` ng, volumes `11/2` and `22/15` µL. -/
theorem eval_concrete :
    calculate_dna_volumes [5, 1] [100, 150] 2 (1/2) =
      .ok ([11/2, 22/15], [550, 220], [1/6, 1/3]) := by
  rw [calculate_eq_ok]
  · simp [volumesVal, weightsVal, amountsVal, n_backboneVal, dnaDenom, fragN,
      fragWeight_eq, List.range_succ]
    norm_num
  · simp [dnaDenom]
    norm_num
  · norm_num
  · intro i hi
    simp only [List.length_cons, List.length_nil] at hi
    interval_cases i <;> norm_num [List.getD]

/-! ### Claims -/

/-- C1: for every call with `N ≥ 1` fragments, `ratio > 0` and
`total_amount > 0`, the returned molar amounts satisfy
`amount[0] = total_amount / (1 + ratio * (N - 1))` and, for every `i > 0`,
`amount[i] = ratio * amount[0]` — all inserts receive the identical molar
amount. -/
theorem C1_amounts_partition (lengths concentrations : List ℚ) (ratio n_total : ℚ)
    (V W A : List ℚ) (hN : 1 ≤ lengths.length) (hr : 0 < ratio) (ht : 0 < n_total)
    (h : calculate_dna_volumes lengths concentrations ratio n_total = .ok (V, W, A)) :
    A.getD 0 0 = n_total / (1 + ratio * ((lengths.length : ℚ) - 1)) ∧
    ∀ i, 0 < i → i < A.length → A.getD i 0 = ratio * A.getD 0 0 := by
  obtain ⟨hd, hlen, hc, hV, hW, hA⟩ := calculate_ok_inv h
  subst hA
  have h0 : (amountsVal lengths ratio n_total).getD 0 0 =
      n_backboneVal lengths ratio n_total := by
    rw [amountsVal, getD_range_map _ (by omega)]
    simp [fragN]
  refine ⟨by rw [h0]; rfl, ?_⟩
  intro i hi hiA
  have hiN : i < lengths.length := by simpa [amountsVal] using hiA
  rw [amountsVal, getD_range_map _ hiN,
    getD_range_map _ (show 0 < lengths.length by omega)]
  simp [fragN, hi]

theorem C1_amounts_partition_witness :
    ([1/6, 1/3] : List ℚ).getD 0 0 =
      (1/2) / (1 + 2 * (((([5, 1] : List ℚ)).length : ℚ) - 1)) ∧
    ∀ i, 0 < i → i < ([1/6, 1/3] : List ℚ).length →
      ([1/6, 1/3] : List ℚ).getD i 0 = 2 * ([1/6, 1/3] : List ℚ).getD 0 0 :=
  C1_amounts_partition [5, 1] [100, 150] 2 (1/2) [11/2, 22/15] [550, 220] [1/6, 1/3]
    (by simp) (by norm_num) (by norm_num) eval_concrete

/-- C2: whenever the call returns, the returned mass satisfies
`mass[i] = amount[i] * 660 * length[i]` exactly, because the conversion
factors `10^-12`, `10^9` and `10^3` of line 31 have net product 1. -/
theorem C2_mass_closed_form (lengths concentrations : List ℚ) (ratio n_total : ℚ)
    (V W A : List ℚ)
    (h : calculate_dna_volumes lengths concentrations ratio n_total = .ok (V, W, A)) :
    (∀ i < W.length, W.getD i 0 = A.getD i 0 * 660 * lengths.getD i 0) ∧
    (10 : ℚ) ^ (-12 : ℤ) * (10 : ℚ) ^ (9 : ℕ) * (10 : ℚ) ^ (3 : ℕ) = 1 := by
  obtain ⟨hd, hlen, hc, hV, hW, hA⟩ := calculate_ok_inv h
  subst hW
  subst hA
  constructor
  · intro i hi
    have hiN : i < lengths.length := by simpa [weightsVal] using hi
    rw [weightsVal, getD_range_map _ hiN, amountsVal, getD_range_map _ hiN, fragWeight_eq]
  · rw [zpow_neg]
    norm_num

theorem C2_mass_closed_form_witness :
    (∀ i < ([550, 220] : List ℚ).length,
      ([550, 220] : List ℚ).getD i 0 =
        ([1/6, 1/3] : List ℚ).getD i 0 * 660 * ([5, 1] : List ℚ).getD i 0) ∧
    (10 : ℚ) ^ (-12 : ℤ) * (10 : ℚ) ^ (9 : ℕ) * (10 : ℚ) ^ (3 : ℕ) = 1 :=
  C2_mass_closed_form [5, 1] [100, 150] 2 (1/2) [11/2, 22/15] [550, 220] [1/6, 1/3]
    eval_concrete

/-- C3: whenever the call returns (with all concentrations strictly
positive), the returned volume satisfies
`volume[i] = mass[i] / concentration[i]`. -/
theorem C3_volume_from_mass (lengths concentrations : List ℚ) (ratio n_total : ℚ)
    (V W A : List ℚ)
    (hpos : ∀ i < concentrations.length, 0 < concentrations.getD i 0)
    (h : calculate_dna_volumes lengths concentrations ratio n_total = .ok (V, W, A)) :
    ∀ i < V.length, V.getD i 0 = W.getD i 0 / concentrations.getD i 0 := by
  obtain ⟨hd, hlen, hc, hV, hW, hA⟩ := calculate_ok_inv h
  subst hV
  subst hW
  intro i hi
  have hiN : i < lengths.length := by simpa [volumesVal] using hi
  rw [volumesVal, getD_range_map _ hiN, weightsVal, getD_range_map _ hiN]

theorem C3_volume_from_mass_witness :
    ([11/2, 22/15] : List ℚ).getD 1 0 =
      ([550, 220] : List ℚ).getD 1 0 / ([100, 150] : List ℚ).getD 1 0 :=
  C3_volume_from_mass [5, 1] [100, 150] 2 (1/2) [11/2, 22/15] [550, 220] [1/6, 1/3]
    (fun i hi => by
      simp only [List.length_cons, List.length_nil] at hi
      interval_cases i <;> norm_num [List.getD])
    eval_concrete 1 (by simp)

/-- C4: for every call with `N ≥ 1`, `ratio > 0` and `total_amount > 0` that
returns, the returned molar amounts sum exactly to `total_amount` (exact in
ℚ, the idealised real arithmetic). -/
theorem C4_amounts_sum_total (lengths concentrations : List ℚ) (ratio n_total : ℚ)
    (V W A : List ℚ) (hN : 1 ≤ lengths.length) (hr : 0 < ratio) (ht : 0 < n_total)
    (h : calculate_dna_volumes lengths concentrations ratio n_total = .ok (V, W, A)) :
    A.sum = n_total := by
  obtain ⟨hd, hlen, hc, hV, hW, hA⟩ := calculate_ok_inv h
  subst hA
  obtain ⟨n, hn⟩ : ∃ n, lengths.length = n + 1 := ⟨lengths.length - 1, by omega⟩
  have hdenom : dnaDenom lengths ratio = 1 + ratio * n := by
    rw [dnaDenom, hn]
    push_cast
    ring
  have hsucc : ∀ i : ℕ, fragN ratio (n_backboneVal lengths ratio n_total) (i + 1) =
      ratio * n_backboneVal lengths ratio n_total := fun i => by simp [fragN]
  have hsplit : amountsVal lengths ratio n_total =
      n_backboneVal lengths ratio n_total ::
        List.replicate n (ratio * n_backboneVal lengths ratio n_total) := by
    rw [amountsVal, hn, List.range_succ_eq_map, List.map_cons, List.map_map]
    have : fragN ratio (n_backboneVal lengths ratio n_total) 0 =
        n_backboneVal lengths ratio n_total := by simp [fragN]
    rw [this]
    congr 1
    rw [show (fragN ratio (n_backboneVal lengths ratio n_total)) ∘ Nat.succ =
        fun _ : ℕ => ratio * n_backboneVal lengths ratio n_total from
      funext fun i => hsucc i]
    rw [List.map_const', List.length_range]
  rw [hsplit, List.sum_cons, List.sum_replicate, nsmul_eq_mul]
  rw [n_backboneVal, hdenom]
  have hdne : (1 : ℚ) + ratio * n ≠ 0 := by
    rw [hdenom] at hd
    exact hd
  field_simp
  ring

theorem C4_amounts_sum_total_witness : ([1/6, 1/3] : List ℚ).sum = 1/2 :=
  C4_amounts_sum_total [5, 1] [100, 150] 2 (1/2) [11/2, 22/15] [550, 220] [1/6, 1/3]
    (by simp) (by norm_num) (by norm_num) eval_concrete

/-- C5: with a single fragment (backbone only) and valid inputs, the call
returns `amount[0] = total_amount` (independent of the ratio),
`mass[0] = total_amount * 660 * length[0]` and
`volume[0] = mass[0] / concentration[0]`. -/
theorem C5_backbone_only (len conc ratio n_total : ℚ)
    (hlen : 0 < len) (hconc : 0 < conc) (hr : 0 < ratio) (ht : 0 < n_total) :
    calculate_dna_volumes [len] [conc] ratio n_total =
      .ok ([n_total * 660 * len / conc], [n_total * 660 * len], [n_total]) := by
  rw [calculate_eq_ok]
  · simp [volumesVal, weightsVal, amountsVal, n_backboneVal, dnaDenom, fragN,
      fragWeight_eq, List.range_succ]
  · simp [dnaDenom]
  · simp
  · intro i hi
    simp only [List.length_cons, List.length_nil] at hi
    interval_cases i <;> simp [List.getD, hconc.ne']

theorem C5_backbone_only_witness :
    calculate_dna_volumes [5] [100] 2 (1/2) =
      .ok ([(1/2) * 660 * 5 / 100], [(1/2) * 660 * 5], [1/2]) :=
  C5_backbone_only 5 100 2 (1/2) (by norm_num) (by norm_num) (by norm_num) (by norm_num)

/-- C6: replacing `concentration[i]` by twice its value, all else fixed,
yields a result whose amounts and masses are unchanged, whose `volume[i]` is
exactly halved, and whose other volumes are unchanged. -/
theorem C6_double_concentration_halves_volume
    (lengths concentrations : List ℚ) (ratio n_total : ℚ)
    (V W A : List ℚ) (i : Nat) (hi : i < lengths.length)
    (h : calculate_dna_volumes lengths concentrations ratio n_total = .ok (V, W, A)) :
    calculate_dna_volumes lengths (concentrations.set i (2 * concentrations.getD i 0))
        ratio n_total =
      .ok (volumesVal lengths (concentrations.set i (2 * concentrations.getD i 0))
        ratio n_total, W, A) ∧
    (volumesVal lengths (concentrations.set i (2 * concentrations.getD i 0))
        ratio n_total).getD i 0 = V.getD i 0 / 2 ∧
    ∀ j < lengths.length, j ≠ i →
      (volumesVal lengths (concentrations.set i (2 * concentrations.getD i 0))
        ratio n_total).getD j 0 = V.getD j 0 := by
  obtain ⟨hd, hlen, hc, hV, hW, hA⟩ := calculate_ok_inv h
  have hic : i < concentrations.length := lt_of_lt_of_le hi hlen
  have hset : ∀ j, (concentrations.set i (2 * concentrations.getD i 0)).getD j 0 =
      if j = i then 2 * concentrations.getD i 0 else concentrations.getD j 0 := by
    intro j
    rcases eq_or_ne j i with rfl | hji
    · rw [List.getD_eq_getElem?_getD, List.getElem?_set_self hic]
      simp
    · rw [List.getD_eq_getElem?_getD, List.getElem?_set_ne (Ne.symm hji),
        ← List.getD_eq_getElem?_getD]
      simp [hji]
  refine ⟨?_, ?_, ?_⟩
  · rw [calculate_eq_ok _ _ _ _ hd (by rw [List.length_set]; exact hlen) ?_, hW, hA]
    intro j hj
    rw [hset j]
    rcases eq_or_ne j i with rfl | hji
    · rw [if_pos rfl]
      exact mul_ne_zero two_ne_zero (hc j hj)
    · rw [if_neg hji]
      exact hc j hj
  · rw [hV, volumesVal, volumesVal, getD_range_map _ hi, getD_range_map _ hi, hset i,
      if_pos rfl, div_div, mul_comm (concentrations.getD i 0) 2]
  · intro j hj hji
    rw [hV, volumesVal, volumesVal, getD_range_map _ hj, getD_range_map _ hj, hset j,
      if_neg hji]

theorem C6_double_concentration_halves_volume_witness :
    calculate_dna_volumes [5, 1] (([100, 150] : List ℚ).set 0
        (2 * ([100, 150] : List ℚ).getD 0 0)) 2 (1/2) =
      .ok (volumesVal [5, 1] (([100, 150] : List ℚ).set 0
        (2 * ([100, 150] : List ℚ).getD 0 0)) 2 (1/2), [550, 220], [1/6, 1/3]) ∧
    (volumesVal [5, 1] (([100, 150] : List ℚ).set 0
        (2 * ([100, 150] : List ℚ).getD 0 0)) 2 (1/2)).getD 0 0 =
      ([11/2, 22/15] : List ℚ).getD 0 0 / 2 ∧
    ∀ j < ([5, 1] : List ℚ).length, j ≠ 0 →
      (volumesVal [5, 1] (([100, 150] : List ℚ).set 0
        (2 * ([100, 150] : List ℚ).getD 0 0)) 2 (1/2)).getD j 0 =
        ([11/2, 22/15] : List ℚ).getD j 0 :=
  C6_double_concentration_halves_volume [5, 1] [100, 150] 2 (1/2)
    [11/2, 22/15] [550, 220] [1/6, 1/3] 0 (by simp) eval_concrete

/-- C7: the spec's concrete scenario, in exact rationals: backbone amount
`1/6 ≈ 0.16667` pmol, insert amount `1/3 ≈ 0.33333` pmol, backbone mass
`550` ng and volume `11/2 = 5.50` µL, insert mass `220` ng and volume
`22/15 ≈ 1.467` µL, total volume `209/30 ≈ 6.97` µL. -/
theorem C7_concrete_scenario :
    calculate_dna_volumes [5, 1] [100, 150] 2 (1/2) =
      .ok ([11/2, 22/15], [550, 220], [1/6, 1/3]) ∧
    ([11/2, 22/15] : List ℚ).sum = 209/30 :=
  ⟨eval_concrete, by norm_num⟩

/-- C8 counterexample: on an invalid input (`total_amount = -1 ≤ 0`) the
function raises no error at all — it silently returns a full (negative)
result, so no `InvalidInput` failure occurs. -/
theorem C8_counterexample :
    calculate_dna_volumes [1] [1] 1 (-1) = .ok ([-660], [-660], [-1]) := by
  rw [calculate_eq_ok]
  · simp [volumesVal, weightsVal, amountsVal, n_backboneVal, dnaDenom, fragN,
      fragWeight_eq, List.range_succ]
  · simp [dnaDenom]
  · simp
  · intro i hi
    simp only [List.length_cons, List.length_nil] at hi
    interval_cases i <;> norm_num [List.getD]

/-- C8 amended: `calculate_dna_volumes` performs no input validation and
never fails with an `InvalidInput` error.  In particular, whenever the
denominator `1 + ratio*(N-1)` is nonzero and every concentration is present
and nonzero, the call silently returns a full result — even for zero or
negative lengths, ratio or total amount. -/
theorem C8_no_validation (lengths concentrations : List ℚ) (ratio n_total : ℚ)
    (hd : dnaDenom lengths ratio ≠ 0)
    (hlen : lengths.length ≤ concentrations.length)
    (hc : ∀ i < lengths.length, concentrations.getD i 0 ≠ 0) :
    ∃ V W A, calculate_dna_volumes lengths concentrations ratio n_total = .ok (V, W, A) :=
  ⟨_, _, _, calculate_eq_ok lengths concentrations ratio n_total hd hlen hc⟩

theorem C8_no_validation_witness :
    ∃ V W A, calculate_dna_volumes [-1] [-3] (-2) (-5) = .ok (V, W, A) :=
  C8_no_validation [-1] [-3] (-2) (-5)
    (by rw [dnaDenom]; norm_num) (by norm_num)
    (fun i hi => by
      simp only [List.length_cons, List.length_nil] at hi
      interval_cases i <;> norm_num [List.getD])

/-- C9: under the spec's preconditions neither division can be by zero — the
denominator is strictly positive and so is every concentration — so the
error branches are unreachable and every returned amount, mass and volume is
strictly positive. -/
theorem C9_no_div_by_zero_and_positive (lengths concentrations : List ℚ)
    (ratio n_total : ℚ) (hN : 1 ≤ lengths.length)
    (hlen : concentrations.length = lengths.length)
    (hl : ∀ i < lengths.length, 0 < lengths.getD i 0)
    (hcpos : ∀ i < concentrations.length, 0 < concentrations.getD i 0)
    (hr : 0 < ratio) (ht : 0 < n_total) :
    dnaDenom lengths ratio ≠ 0 ∧
    calculate_dna_volumes lengths concentrations ratio n_total =
      .ok (volumesVal lengths concentrations ratio n_total,
        weightsVal lengths ratio n_total, amountsVal lengths ratio n_total) ∧
    (∀ x ∈ volumesVal lengths concentrations ratio n_total, 0 < x) ∧
    (∀ x ∈ weightsVal lengths ratio n_total, 0 < x) ∧
    (∀ x ∈ amountsVal lengths ratio n_total, 0 < x) := by
  have hdpos := dnaDenom_pos lengths ratio hN hr
  have hnb : 0 < n_backboneVal lengths ratio n_total := div_pos ht hdpos
  have hfrag : ∀ i, 0 < fragN ratio (n_backboneVal lengths ratio n_total) i := by
    intro i
    unfold fragN
    split
    · exact mul_pos hr hnb
    · exact hnb
  have hw : ∀ i < lengths.length,
      0 < fragWeight (fragN ratio (n_backboneVal lengths ratio n_total) i)
        (lengths.getD i 0) := fun i hi => by
    rw [fragWeight_eq]
    exact mul_pos (mul_pos (hfrag i) (by norm_num)) (hl i hi)
  refine ⟨hdpos.ne', calculate_eq_ok _ _ _ _ hdpos.ne' hlen.ge
      (fun i hi => (hcpos i (by omega)).ne'), ?_, ?_, ?_⟩
  · intro x hx
    obtain ⟨i, hi, rfl⟩ := List.mem_map.mp hx
    have hiN := List.mem_range.mp hi
    exact div_pos (hw i hiN) (hcpos i (by omega))
  · intro x hx
    obtain ⟨i, hi, rfl⟩ := List.mem_map.mp hx
    exact hw i (List.mem_range.mp hi)
  · intro x hx
    obtain ⟨i, hi, rfl⟩ := List.mem_map.mp hx
    exact hfrag i

theorem C9_no_div_by_zero_and_positive_witness :
    dnaDenom [5, 1] 2 ≠ 0 ∧
    calculate_dna_volumes [5, 1] [100, 150] 2 (1/2) =
      .ok (volumesVal [5, 1] [100, 150] 2 (1/2),
        weightsVal [5, 1] 2 (1/2), amountsVal [5, 1] 2 (1/2)) ∧
    (∀ x ∈ volumesVal [5, 1] [100, 150] 2 (1/2), 0 < x) ∧
    (∀ x ∈ weightsVal [5, 1] 2 (1/2), 0 < x) ∧
    (∀ x ∈ amountsVal [5, 1] 2 (1/2), 0 < x) :=
  C9_no_div_by_zero_and_positive [5, 1] [100, 150] 2 (1/2) (by simp) (by simp)
    (fun i hi => by
      simp only [List.length_cons, List.length_nil] at hi
      interval_cases i <;> norm_num [List.getD])
    (fun i hi => by
      simp only [List.length_cons, List.length_nil] at hi
      interval_cases i <;> norm_num [List.getD])
    (by norm_num) (by norm_num)

/-- C10: on empty inputs (`N = 0`) the function does not signal invalid
input: for `ratio ≠ 1` it returns three empty lists, and for `ratio = 1` the
denominator `1 + ratio * (0 - 1)` is zero and the call fails with
`ZeroDivisionError`. -/
theorem C10_empty_inputs (ratio n_total : ℚ) :
    (ratio ≠ 1 → calculate_dna_volumes [] [] ratio n_total = .ok ([], [], [])) ∧
    calculate_dna_volumes [] [] 1 n_total = .error .zeroDivisionError := by
  constructor
  · intro hne
    rw [calculate_eq_ok]
    · simp [volumesVal, weightsVal, amountsVal]
    · rw [dnaDenom_nil]
      exact sub_ne_zero_of_ne (Ne.symm hne)
    · simp
    · intro i hi
      simp at hi
  · unfold calculate_dna_volumes
    rw [if_pos]
    rw [dnaDenom_nil]
    ring

theorem C10_empty_inputs_witness :
    calculate_dna_volumes [] [] 2 7 = .ok ([], [], []) ∧
    calculate_dna_volumes [] [] 1 7 = .error .zeroDivisionError :=
  ⟨(C10_empty_inputs 2 7).1 (by norm_num), (C10_empty_inputs 1 7).2⟩

end CloningCalc
